import Mathlib

/-
Verification of the disk log consumer task (DiskLogConsumerTask) of the
terrier storage engine, as implemented in
src/storage/write_ahead_log/disk_log_consumer_task.cpp.

The task state is embedded shallowly: the member fields of the task become
fields of `ConsumerState`, the observable actions of the consumer thread
(lock acquisition, fsync, callback invocation, condition-variable notify,
metrics submission) are recorded in an event trace, and the main loop is a
function over a finite schedule of environment interactions (buffer
arrivals, force-flush requests, termination requests) and per-iteration
inputs (timer values, the timeout test, the thread-local metrics store).
-/

namespace Terrier

/-- A commit callback: the C++ `(fn, arg)` pair is abstracted as an
identifier; invoking the callback is an observable event carrying it. -/
abbrev Callback := Nat

/-- A `BufferedLogWriter`: identified by `id`; `FlushBuffer` hands
`flushBytes` bytes to the OS and returns that count. -/
structure LogBuffer where
  id : Nat
  flushBytes : Nat
  deriving DecidableEq, Repr

/-- `SerializedLogs`: a filled buffer paired with the commit callbacks of
the transactions whose commit records lie in its bytes, in record order. -/
structure SerializedLogs where
  buffer : LogBuffer
  callbacks : List Callback
  deriving DecidableEq, Repr

/-- Observable events of the consumer thread, in program order:
acquire/release of `persist_lock_`, completion of `Persist()` (the fsync)
on a given buffer, invocation of a commit callback, `persist_cv_`
notification, and a metrics submission with its four arguments. -/
inductive Event where
  | lockAcquire
  | lockRelease
  | persist (bufferId : Nat)
  | invoke (c : Callback)
  | notifyPersistDone
  | record (writeUs persistUs numBytes numBuffers : Nat)
  deriving DecidableEq, Repr

/-- The member state of `DiskLogConsumerTask` relevant to the claims:
the filled and empty buffer queues (FIFO lists, front = next dequeue),
the pending commit-callback list `commit_callbacks_`, the byte counter
`current_data_written_`, the `buffers_` vector, the configuration value
`persist_threshold_`, the flags `do_persist_` and `run_task_`, and the
event trace accumulated so far. -/
structure ConsumerState where
  filledQueue : List SerializedLogs
  emptyQueue : List LogBuffer
  commitCallbacks : List Callback
  currentDataWritten : Nat
  buffers : List LogBuffer
  persistThreshold : Nat
  doPersist : Bool
  runTask : Bool
  events : List Event
  deriving DecidableEq, Repr

/-- One pass of the `while` body of `WriteBuffersToLogFile` (lines 27-31):
dequeue an entry, add the return value of `FlushBuffer()` to `current_data_written_`,
append the callbacks of the entry to `commit_callbacks_`, and enqueue the
buffer on the empty queue. -/
def drainEntry (s : ConsumerState) (logs : SerializedLogs) : ConsumerState :=
  { s with
    currentDataWritten := s.currentDataWritten + logs.buffer.flushBytes,
    commitCallbacks := s.commitCallbacks ++ logs.callbacks,
    emptyQueue := s.emptyQueue ++ [logs.buffer] }

/-- The `while (!filled_buffer_queue_->Empty())` loop of
`WriteBuffersToLogFile`, running over the entries dequeued in FIFO
order. -/
def drainAll (s : ConsumerState) : List SerializedLogs → ConsumerState
  | [] => s
  | logs :: rest => drainAll (drainEntry s logs) rest

/-- `DiskLogConsumerTask::WriteBuffersToLogFile` (lines 22-33): drain the
filled queue to the log file, collecting commit callbacks. -/
def writeBuffersToLogFile (s : ConsumerState) : ConsumerState :=
  drainAll { s with filledQueue := [] } s.filledQueue

/-- `DiskLogConsumerTask::PersistLogFile` (lines 35-45): assert `buffers_`
non-empty (`none` models the assertion failing), call `Persist()` on the
front buffer, snapshot `commit_callbacks_.size()`, invoke every pending
callback in order, clear the list, and return the snapshot. -/
def persistLogFile (s : ConsumerState) : Option (Nat × ConsumerState) :=
  match s.buffers with
  | [] => none
  | b :: _ =>
      some (s.commitCallbacks.length,
        { s with
          commitCallbacks := [],
          events := s.events ++ Event.persist b.id :: s.commitCallbacks.map Event.invoke })

/-- The callbacks attached to the entries of a queue, in queue order and,
within one entry, in the order of that entry. -/
def callbacksOfQueue (q : List SerializedLogs) : List Callback :=
  (q.map SerializedLogs.callbacks).flatten

/-- The callbacks invoked in a trace, in invocation order. -/
def invokedList : List Event → List Callback
  | [] => []
  | Event.invoke c :: rest => c :: invokedList rest
  | _ :: rest => invokedList rest

/-- Whether a trace contains an fsync completion. -/
def hasPersist : List Event → Bool
  | [] => false
  | Event.persist _ :: _ => true
  | _ :: rest => hasPersist rest

/-- `persistCovered seen l` holds when every callback invocation in `l` is
preceded by an fsync completion, either earlier in `l` or already `seen`
before `l` began. -/
def persistCovered : Bool → List Event → Bool
  | _, [] => true
  | seen, Event.invoke _ :: rest => seen && persistCovered seen rest
  | _, Event.persist _ :: rest => persistCovered true rest
  | seen, _ :: rest => persistCovered seen rest

/-- The thread-local metrics store (`common::thread_context.metrics_store_`):
only its `ComponentEnabled(MetricsComponent::LOGGING)` answer matters here. -/
structure MetricsStore where
  loggingEnabled : Bool
  deriving DecidableEq, Repr

/-- The full state of `DiskLogConsumerTaskLoop`: the task members plus the
loop-local accumulators `write_us`, `persist_us`, `num_bytes`,
`num_buffers` (lines 48). -/
structure LoopState where
  cs : ConsumerState
  writeUs : Nat
  persistUs : Nat
  numBytes : Nat
  numBuffers : Nat
  deriving DecidableEq, Repr

/-- Per-iteration inputs from the environment of the loop body: the result
of the `timeout` test against `persist_interval_` (line 81), the two
scoped-timer readings in microseconds, and the thread-local metrics store
observed at line 99 (`none` models a null `metrics_store_`). -/
structure IterInput where
  timeout : Bool
  writeTime : Nat
  persistTime : Nat
  metricsStore : Option MetricsStore
  deriving DecidableEq, Repr

/-- The actions of concurrent threads before an iteration observes the
shared state: the serializer enqueues `arrivals` on the filled queue,
`ForcePersist` callers set `do_persist_`, and `Terminate` clears
`run_task_`. -/
structure EnvInput where
  arrivals : List SerializedLogs
  forcePersist : Bool
  terminate : Bool
  deriving DecidableEq, Repr

/-- Apply the effects of concurrent producers, force-flushers and
`Terminate` to the shared state. -/
def envStep (e : EnvInput) (s : LoopState) : LoopState :=
  { s with cs := { s.cs with
      filledQueue := s.cs.filledQueue ++ e.arrivals,
      doPersist := s.cs.doPersist || e.forcePersist,
      runTask := s.cs.runTask && !e.terminate } }

/-- The persist branch of the loop body (lines 83-95): under
`persist_lock_`, call `PersistLogFile`, snapshot `num_bytes`, reset
`current_data_written_` and `do_persist_`, release the lock and broadcast
`persist_cv_`. -/
def persistBranch (s : LoopState) : Option LoopState :=
  match persistLogFile { s.cs with events := s.cs.events ++ [Event.lockAcquire] } with
  | none => none
  | some (nb, cs1) =>
      some { s with
        cs := { cs1 with
          currentDataWritten := 0,
          doPersist := false,
          events := cs1.events ++ [Event.lockRelease, Event.notifyPersistDone] },
        numBuffers := nb,
        numBytes := s.cs.currentDataWritten }

/-- The condition of line 83, evaluated on the state after the drain. -/
def persistDecision (timeout : Bool) (s : LoopState) : Bool :=
  timeout || decide (s.cs.currentDataWritten > s.cs.persistThreshold) ||
    s.cs.doPersist || !s.cs.runTask

/-- The metrics section of the loop body (lines 99-103): submit the four
accumulators when `num_bytes > 0`, the store is non-null and LOGGING is
enabled, then reset the accumulators; the null test short-circuits before
any use of the store. -/
def metricsCond (numBytes : Nat) (store : Option MetricsStore) : Bool :=
  decide (numBytes > 0) &&
    (match store with
     | none => false
     | some st => st.loggingEnabled)

/-- Perform the metrics section on the loop state. -/
def metricsStep (store : Option MetricsStore) (s : LoopState) : LoopState :=
  if metricsCond s.numBytes store then
    { s with
      cs := { s.cs with
        events := s.cs.events ++ [Event.record s.writeUs s.persistUs s.numBytes s.numBuffers] },
      writeUs := 0, persistUs := 0, numBytes := 0, numBuffers := 0 }
  else s

/-- The condition-variable wait of lines 56-66: `persist_lock_` is
acquired, the wait runs, and the lock is released at the end of the
block; no task member changes. -/
def waitPhase (s : LoopState) : LoopState :=
  { s with cs := { s.cs with events := s.cs.events ++ [Event.lockAcquire, Event.lockRelease] } }

/-- The timed drain of lines 68-74: `WriteBuffersToLogFile` under a
scoped timer whose reading is added to `write_us`. -/
def drainPhase (writeTime : Nat) (s : LoopState) : LoopState :=
  { s with cs := writeBuffersToLogFile s.cs, writeUs := s.writeUs + writeTime }

/-- One execution of the loop body (lines 56-103): the condition-variable
wait under `persist_lock_`, the timed drain, the persist decision and
branch, the `persist_us` update, and the metrics section. `none` models a
failed assertion inside `PersistLogFile`. -/
def iterBody (inp : IterInput) (s : LoopState) : Option LoopState :=
  let s2 := drainPhase inp.writeTime (waitPhase s)
  if persistDecision inp.timeout s2 then
    match persistBranch s2 with
    | none => none
    | some s3 => some (metricsStep inp.metricsStore { s3 with persistUs := inp.persistTime })
  else
    some (metricsStep inp.metricsStore { s2 with persistUs := inp.writeTime })

/-- The `do … while (run_task_)` loop (lines 55-104) over a finite
schedule: each scheduled step interleaves the environment and runs the
body once; the loop exits as soon as `run_task_` is observed false.
`none` propagates a failed assertion. -/
def runLoop : List (EnvInput × IterInput) → LoopState → Option LoopState
  | [], s => some s
  | (e, i) :: rest, s =>
      match iterBody i (envStep e s) with
      | none => none
      | some s1 => if s1.cs.runTask then runLoop rest s1 else some s1

/-- The final drain and persist after the loop exits (lines 106-107):
`WriteBuffersToLogFile` then `PersistLogFile` with its return value
discarded, with no lock, no counter reset and no notification. -/
def shutdownPhase (s : LoopState) : Option LoopState :=
  match persistLogFile (writeBuffersToLogFile s.cs) with
  | none => none
  | some (_, cs1) => some { s with cs := cs1 }

/-- `DiskLogConsumerTask::DiskLogConsumerTaskLoop` (lines 47-108) over a
finite schedule: zero the accumulators and `current_data_written_`, run
the do-while loop, and on exit run the unconditional final drain and
persist. The result is `none` when an assertion fails or when the
schedule ends before `Terminate` stops the loop. -/
def diskLogConsumerTaskLoop (inputs : List (EnvInput × IterInput))
    (s0 : ConsumerState) : Option LoopState :=
  let init : LoopState :=
    { cs := { s0 with currentDataWritten := 0 },
      writeUs := 0, persistUs := 0, numBytes := 0, numBuffers := 0 }
  match runLoop inputs init with
  | none => none
  | some s => if s.cs.runTask then none else shutdownPhase s

/-- `DiskLogConsumerTask::RunTask` (lines 8-11): set `run_task_` and enter
the loop. -/
def runTask (inputs : List (EnvInput × IterInput)) (s0 : ConsumerState) :
    Option LoopState :=
  diskLogConsumerTaskLoop inputs { s0 with runTask := true }

/-- The spin-yield loop of `Terminate` (line 15) over the successive
values it reads from `run_task_`: `none` means the observations ran out
with the loop still spinning. -/
def spinUntilRunning : List Bool → Option Unit
  | [] => none
  | b :: rest => if b then some () else spinUntilRunning rest

/-- The result of `Terminate`: the value it leaves in `run_task_` and
whether it notified `disk_log_writer_thread_cv_`. -/
structure TerminateResult where
  runTask : Bool
  notifiedWake : Bool
  deriving DecidableEq, Repr

/-- `DiskLogConsumerTask::Terminate` (lines 13-20) over the successive
reads of `run_task_`: spin-yield while it is false; once it is observed
true, set it to false and notify the wake condition variable. -/
def terminate (obs : List Bool) : Option TerminateResult :=
  match spinUntilRunning obs with
  | none => none
  | some _ => some { runTask := false, notifiedWake := true }

/-- The total number of bytes `FlushBuffer` reports for a list of
entries. -/
def flushSum (q : List SerializedLogs) : Nat :=
  (q.map fun e => e.buffer.flushBytes).sum

/-- The callbacks the serializer attached over a whole schedule, in
producer order. -/
def arrivalCallbacks (inputs : List (EnvInput × IterInput)) : List Callback :=
  (inputs.map fun p => callbacksOfQueue p.1.arrivals).flatten

/-- Callbacks not yet invoked are either pending in `commit_callbacks_`
or still attached to a filled-queue entry; prepending the already-invoked
ones gives a quantity the loop body conserves. -/
def obligations (s : LoopState) : List Callback :=
  invokedList s.cs.events ++ s.cs.commitCallbacks ++ callbacksOfQueue s.cs.filledQueue

/-- A concrete buffer used to instantiate the theorems. -/
def bufA : LogBuffer := { id := 9, flushBytes := 10 }

/-- A concrete consumer state with two pending commit callbacks. -/
def pendingState : ConsumerState :=
  { filledQueue := [], emptyQueue := [], commitCallbacks := [1, 2],
    currentDataWritten := 0, buffers := [bufA], persistThreshold := 0,
    doPersist := false, runTask := true, events := [] }

/-- The same state with an empty `buffers_` vector. -/
def noBufferState : ConsumerState := { pendingState with buffers := [] }

/-- A clean running consumer state with persist threshold 100. -/
def initState : ConsumerState :=
  { filledQueue := [], emptyQueue := [], commitCallbacks := [],
    currentDataWritten := 0, buffers := [bufA], persistThreshold := 100,
    doPersist := false, runTask := true, events := [] }

/-- A concrete loop state with pending callbacks. -/
def pendingLoopState : LoopState :=
  { cs := pendingState, writeUs := 0, persistUs := 0, numBytes := 0, numBuffers := 0 }

/-- A concrete loop state with nonzero accumulators. -/
def metricsLoopState : LoopState :=
  { cs := initState, writeUs := 3, persistUs := 4, numBytes := 5, numBuffers := 6 }

/-- A concrete iteration input whose timeout test fired. -/
def iterInputA : IterInput :=
  { timeout := true, writeTime := 0, persistTime := 0, metricsStore := none }

/-- A one-step schedule: one arrival carrying callback 7, with the
termination request in the same step. -/
def sampleSchedule : List (EnvInput × IterInput) :=
  [({ arrivals := [{ buffer := bufA, callbacks := [7] }], forcePersist := false,
      terminate := true },
    { timeout := false, writeTime := 0, persistTime := 0, metricsStore := none })]

lemma callbacksOfQueue_append (a b : List SerializedLogs) :
    callbacksOfQueue (a ++ b) = callbacksOfQueue a ++ callbacksOfQueue b := by
  simp [callbacksOfQueue]

lemma callbacksOfQueue_nil : callbacksOfQueue [] = [] := rfl

lemma invokedList_append (a b : List Event) :
    invokedList (a ++ b) = invokedList a ++ invokedList b := by
  induction a with
  | nil => simp [invokedList]
  | cons e rest ih => cases e <;> simp [invokedList, ih]

lemma invokedList_map_invoke (l : List Callback) :
    invokedList (l.map Event.invoke) = l := by
  induction l with
  | nil => simp [invokedList]
  | cons c rest ih => simp [invokedList, ih]

lemma hasPersist_append (a b : List Event) :
    hasPersist (a ++ b) = (hasPersist a || hasPersist b) := by
  induction a with
  | nil => simp [hasPersist]
  | cons e rest ih => cases e <;> simp [hasPersist, ih]

lemma persistCovered_append (seen : Bool) (a b : List Event) :
    persistCovered seen (a ++ b) =
      (persistCovered seen a && persistCovered (seen || hasPersist a) b) := by
  induction a generalizing seen with
  | nil => simp [persistCovered, hasPersist]
  | cons e rest ih =>
      cases e <;> simp [persistCovered, hasPersist, ih, Bool.and_assoc]

lemma persistCovered_of_false (l : List Event) (h : persistCovered false l = true) :
    persistCovered true l = true := by
  induction l with
  | nil => simp [persistCovered]
  | cons e rest ih =>
      cases e <;> simp [persistCovered] at h ⊢ <;> simp_all

lemma persistCovered_map_invoke (l : List Callback) :
    persistCovered true (l.map Event.invoke) = true := by
  induction l with
  | nil => simp [persistCovered]
  | cons c rest ih => simp [persistCovered, ih]

/-- From the recursively checked coverage predicate, recover the indexed
statement: every invocation has an earlier fsync completion. -/
lemma persistCovered_getElem (l : List Event) (seen : Bool)
    (h : persistCovered seen l = true) :
    ∀ (i : Nat) (c : Callback), l[i]? = some (Event.invoke c) →
      seen = true ∨ ∃ j : Nat, j < i ∧ ∃ b, l[j]? = some (Event.persist b) := by
  induction l generalizing seen with
  | nil => intro i c hi; simp at hi
  | cons e rest ih =>
      intro i c hi
      match i with
      | 0 =>
          simp at hi
          subst hi
          simp [persistCovered] at h
          exact Or.inl h.1
      | Nat.succ i' =>
          simp at hi
          have step : ∃ seen', persistCovered seen' rest = true ∧
              (seen' = true → seen = true ∨ e = Event.persist (match e with | Event.persist b => b | _ => 0)) := by
            cases e <;> simp [persistCovered] at h <;> first
              | exact ⟨seen, h, fun hs => Or.inl hs⟩
              | exact ⟨seen, h.2, fun hs => Or.inl hs⟩
              | exact ⟨true, h, fun _ => Or.inr rfl⟩
          obtain ⟨seen', hrest, hback⟩ := step
          rcases ih seen' hrest i' c hi with hs | ⟨j, hj, b, hb⟩
          · rcases hback hs with hseen | hpe
            · exact Or.inl hseen
            · refine Or.inr ⟨0, Nat.succ_pos _, ?_⟩
              cases e <;> simp at hpe ⊢
          · exact Or.inr ⟨j + 1, Nat.succ_lt_succ hj, b, by simpa using hb⟩

lemma drainAll_eq (q : List SerializedLogs) (s : ConsumerState) :
    drainAll s q =
      { s with
        currentDataWritten := s.currentDataWritten + flushSum q,
        commitCallbacks := s.commitCallbacks ++ callbacksOfQueue q,
        emptyQueue := s.emptyQueue ++ q.map SerializedLogs.buffer } := by
  induction q generalizing s with
  | nil => simp [drainAll, flushSum, callbacksOfQueue]
  | cons e rest ih =>
      simp [drainAll, drainEntry, ih, flushSum, callbacksOfQueue, Nat.add_assoc]

lemma metricsStep_master (store : Option MetricsStore) (s : LoopState) :
    (metricsStep store s).cs.buffers = s.cs.buffers ∧
    (metricsStep store s).cs.runTask = s.cs.runTask ∧
    (metricsStep store s).cs.doPersist = s.cs.doPersist ∧
    (metricsStep store s).cs.commitCallbacks = s.cs.commitCallbacks ∧
    (metricsStep store s).cs.filledQueue = s.cs.filledQueue ∧
    ∃ seg, (metricsStep store s).cs.events = s.cs.events ++ seg ∧
      invokedList seg = [] ∧ hasPersist seg = false ∧
      persistCovered false seg = true := by
  unfold metricsStep
  split
  · exact ⟨rfl, rfl, rfl, rfl, rfl,
      [Event.record s.writeUs s.persistUs s.numBytes s.numBuffers], rfl, rfl, rfl, rfl⟩
  · exact ⟨rfl, rfl, rfl, rfl, rfl, [], by simp, rfl, rfl, rfl⟩

lemma persistBranch_eq (s : LoopState) (b : LogBuffer) (bs : List LogBuffer)
    (hb : s.cs.buffers = b :: bs) :
    persistBranch s = some
      { s with
        cs := { s.cs with
          commitCallbacks := [],
          currentDataWritten := 0,
          doPersist := false,
          events := s.cs.events ++
            Event.lockAcquire :: Event.persist b.id ::
              (s.cs.commitCallbacks.map Event.invoke ++
                [Event.lockRelease, Event.notifyPersistDone]) },
        numBuffers := s.cs.commitCallbacks.length,
        numBytes := s.cs.currentDataWritten } := by
  unfold persistBranch persistLogFile
  simp [hb]

lemma writeBuffersToLogFile_eq (s : ConsumerState) :
    writeBuffersToLogFile s =
      { s with
        filledQueue := [],
        currentDataWritten := s.currentDataWritten + flushSum s.filledQueue,
        commitCallbacks := s.commitCallbacks ++ callbacksOfQueue s.filledQueue,
        emptyQueue := s.emptyQueue ++ s.filledQueue.map SerializedLogs.buffer } := by
  simp [writeBuffersToLogFile, drainAll_eq]

lemma drainPhase_eq (w : Nat) (s : LoopState) :
    drainPhase w (waitPhase s) =
      { s with
        cs := { s.cs with
          filledQueue := [],
          currentDataWritten := s.cs.currentDataWritten + flushSum s.cs.filledQueue,
          commitCallbacks := s.cs.commitCallbacks ++ callbacksOfQueue s.cs.filledQueue,
          emptyQueue := s.cs.emptyQueue ++ s.cs.filledQueue.map SerializedLogs.buffer,
          events := s.cs.events ++ [Event.lockAcquire, Event.lockRelease] },
        writeUs := s.writeUs + w } := by
  simp [drainPhase, waitPhase, writeBuffersToLogFile_eq]

lemma metricsStep_tail (store : Option MetricsStore) (t s : LoopState)
    (hbuf : t.cs.buffers = s.cs.buffers) (hrun : t.cs.runTask = s.cs.runTask)
    (hob : obligations t = obligations s)
    (seg0 : List Event) (hev : t.cs.events = s.cs.events ++ seg0)
    (hcov : persistCovered false seg0 = true) :
    ∃ s1, metricsStep store t = s1 ∧ s1.cs.buffers = s.cs.buffers ∧
      s1.cs.runTask = s.cs.runTask ∧ obligations s1 = obligations s ∧
      ∃ seg, s1.cs.events = s.cs.events ++ seg ∧ persistCovered false seg = true := by
  obtain ⟨h1, h2, _, h4, h5, seg2, he2, hi2, _, hc2⟩ := metricsStep_master store t
  refine ⟨_, rfl, h1.trans hbuf, h2.trans hrun, ?_, seg0 ++ seg2, ?_, ?_⟩
  · unfold obligations at hob ⊢
    rw [h4, h5, he2, invokedList_append, hi2]
    simpa using hob
  · rw [he2, hev, List.append_assoc]
  · cases hhp : hasPersist seg0 <;>
      simp [persistCovered_append, hcov, hhp, hc2, persistCovered_of_false _ hc2]

lemma iterBody_master (inp : IterInput) (s : LoopState) (b : LogBuffer)
    (bs : List LogBuffer) (hb : s.cs.buffers = b :: bs) :
    ∃ s1, iterBody inp s = some s1 ∧
      s1.cs.buffers = s.cs.buffers ∧
      s1.cs.runTask = s.cs.runTask ∧
      obligations s1 = obligations s ∧
      ∃ seg, s1.cs.events = s.cs.events ++ seg ∧ persistCovered false seg = true := by
  have hIter : iterBody inp s =
      (if persistDecision inp.timeout (drainPhase inp.writeTime (waitPhase s)) then
        match persistBranch (drainPhase inp.writeTime (waitPhase s)) with
        | none => none
        | some s3 => some (metricsStep inp.metricsStore { s3 with persistUs := inp.persistTime })
      else
        some (metricsStep inp.metricsStore
          { drainPhase inp.writeTime (waitPhase s) with persistUs := inp.writeTime })) := rfl
  obtain ⟨D, hD⟩ : ∃ D, drainPhase inp.writeTime (waitPhase s) = D := ⟨_, rfl⟩
  rw [hD] at hIter
  rw [drainPhase_eq] at hD
  have hDbuf : D.cs.buffers = s.cs.buffers := by rw [← hD]
  have hDrun : D.cs.runTask = s.cs.runTask := by rw [← hD]
  have hDcc : D.cs.commitCallbacks =
      s.cs.commitCallbacks ++ callbacksOfQueue s.cs.filledQueue := by rw [← hD]
  have hDfq : D.cs.filledQueue = [] := by rw [← hD]
  have hDev : D.cs.events = s.cs.events ++ [Event.lockAcquire, Event.lockRelease] := by
    rw [← hD]
  by_cases hd : persistDecision inp.timeout D = true
  · rw [if_pos hd, persistBranch_eq D b bs (hDbuf.trans hb)] at hIter
    obtain ⟨T, hT, hTbuf, hTrun, hTob, seg0, hTev, hTcov⟩ :
        ∃ T, iterBody inp s = some (metricsStep inp.metricsStore T) ∧
          T.cs.buffers = s.cs.buffers ∧ T.cs.runTask = s.cs.runTask ∧
          obligations T = obligations s ∧
          ∃ seg0, T.cs.events = s.cs.events ++ seg0 ∧
            persistCovered false seg0 = true := by
      refine ⟨_, hIter, hDbuf, hDrun, ?_, ?_, ?_, ?_⟩
      · simp [obligations, hDfq, hDev, hDcc, invokedList_append, invokedList,
          invokedList_map_invoke, callbacksOfQueue_nil, List.append_assoc]
      · exact Event.lockAcquire :: Event.lockRelease :: Event.lockAcquire ::
          Event.persist b.id ::
            ((s.cs.commitCallbacks ++ callbacksOfQueue s.cs.filledQueue).map Event.invoke ++
              [Event.lockRelease, Event.notifyPersistDone])
      · simp [hDev, hDcc, List.append_assoc]
      · simp [persistCovered, persistCovered_append, persistCovered_map_invoke]
    obtain ⟨s1, hms, h1, h2, h3, h4⟩ :=
      metricsStep_tail inp.metricsStore T s hTbuf hTrun hTob seg0 hTev hTcov
    exact ⟨s1, by rw [hT, hms], h1, h2, h3, h4⟩
  · rw [if_neg hd] at hIter
    obtain ⟨T, hT, hTbuf, hTrun, hTob, seg0, hTev, hTcov⟩ :
        ∃ T, iterBody inp s = some (metricsStep inp.metricsStore T) ∧
          T.cs.buffers = s.cs.buffers ∧ T.cs.runTask = s.cs.runTask ∧
          obligations T = obligations s ∧
          ∃ seg0, T.cs.events = s.cs.events ++ seg0 ∧
            persistCovered false seg0 = true := by
      refine ⟨_, hIter, hDbuf, hDrun, ?_, ?_, ?_, ?_⟩
      · simp [obligations, hDfq, hDev, hDcc, invokedList_append, invokedList,
          callbacksOfQueue_nil, List.append_assoc]
      · exact [Event.lockAcquire, Event.lockRelease]
      · simp [hDev]
      · simp [persistCovered]
    obtain ⟨s1, hms, h1, h2, h3, h4⟩ :=
      metricsStep_tail inp.metricsStore T s hTbuf hTrun hTob seg0 hTev hTcov
    exact ⟨s1, by rw [hT, hms], h1, h2, h3, h4⟩

lemma persistCovered_concat (a b : List Event) (ha : persistCovered false a = true)
    (hb : persistCovered false b = true) : persistCovered false (a ++ b) = true := by
  cases hp : hasPersist a <;>
    simp [persistCovered_append, ha, hp, hb, persistCovered_of_false _ hb]

lemma envStep_obligations (e : EnvInput) (s : LoopState) :
    obligations (envStep e s) = obligations s ++ callbacksOfQueue e.arrivals := by
  simp [obligations, envStep, callbacksOfQueue_append, List.append_assoc]

lemma arrivalCallbacks_cons (p : EnvInput × IterInput)
    (rest : List (EnvInput × IterInput)) :
    arrivalCallbacks (p :: rest) = callbacksOfQueue p.1.arrivals ++ arrivalCallbacks rest := by
  simp [arrivalCallbacks]

lemma arrivalCallbacks_nil : arrivalCallbacks [] = [] := rfl

/-- Any scheduled run of the loop succeeds when `buffers_` is non-empty,
preserves `buffers_`, and only appends trace segments in which every
callback invocation is preceded by an fsync completion. -/
lemma runLoop_trace (inputs : List (EnvInput × IterInput)) (s : LoopState)
    (b : LogBuffer) (bs : List LogBuffer) (hb : s.cs.buffers = b :: bs) :
    ∃ s1, runLoop inputs s = some s1 ∧ s1.cs.buffers = s.cs.buffers ∧
      ∃ seg, s1.cs.events = s.cs.events ++ seg ∧ persistCovered false seg = true := by
  induction inputs generalizing s with
  | nil => exact ⟨s, rfl, rfl, [], by simp, rfl⟩
  | cons p rest ih =>
      obtain ⟨e, i⟩ := p
      have henv : (envStep e s).cs.buffers = s.cs.buffers := rfl
      have henvev : (envStep e s).cs.events = s.cs.events := rfl
      obtain ⟨s1, hbody, hbuf, _, _, seg1, hev1, hcov1⟩ :=
        iterBody_master i (envStep e s) b bs (henv.trans hb)
      by_cases hr : s1.cs.runTask = true
      · obtain ⟨s2, hrl, hbuf2, seg2, hev2, hcov2⟩ :=
          ih s1 ((hbuf.trans henv).trans hb)
        refine ⟨s2, ?_, hbuf2.trans (hbuf.trans henv), seg1 ++ seg2, ?_, ?_⟩
        · simp [runLoop, hbody, hr, hrl]
        · rw [hev2, hev1, henvev, List.append_assoc]
        · exact persistCovered_concat seg1 seg2 hcov1 hcov2
      · refine ⟨s1, ?_, hbuf.trans henv, seg1, by rw [hev1, henvev], hcov1⟩
        simp [runLoop, hbody, hr]

/-- When the task is running and `Terminate` is scheduled at the earliest
at the last step, the loop consumes the whole schedule, conserves the
callback obligations extended by every arrival, and ends running iff no
step terminated it. -/
lemma runLoop_complete (inputs : List (EnvInput × IterInput)) (s : LoopState)
    (b : LogBuffer) (bs : List LogBuffer) (hb : s.cs.buffers = b :: bs)
    (hrun : s.cs.runTask = true)
    (hmid : ∀ p ∈ inputs.dropLast, p.1.terminate = false) :
    ∃ s1, runLoop inputs s = some s1 ∧ s1.cs.buffers = s.cs.buffers ∧
      obligations s1 = obligations s ++ arrivalCallbacks inputs ∧
      s1.cs.runTask = inputs.all (fun p => !p.1.terminate) := by
  induction inputs generalizing s with
  | nil => exact ⟨s, rfl, rfl, by simp [arrivalCallbacks_nil], by simp [hrun]⟩
  | cons p rest ih =>
      obtain ⟨e, i⟩ := p
      have henv : (envStep e s).cs.buffers = s.cs.buffers := rfl
      have henvrt : (envStep e s).cs.runTask = (s.cs.runTask && !e.terminate) := rfl
      obtain ⟨s1, hbody, hbuf, hrt1, hob1, _, _, _⟩ :=
        iterBody_master i (envStep e s) b bs (henv.trans hb)
      have hob1s : obligations s1 = obligations s ++ callbacksOfQueue e.arrivals :=
        hob1.trans (envStep_obligations e s)
      have hrt1s : s1.cs.runTask = !e.terminate := by
        rw [hrt1, henvrt, hrun, Bool.true_and]
      by_cases hr : s1.cs.runTask = true
      · have hmidr : ∀ q ∈ rest.dropLast, q.1.terminate = false := by
          intro q hq
          apply hmid
          cases rest with
          | nil => simp at hq
          | cons r rs => simpa [List.dropLast_cons₂] using Or.inr hq
        obtain ⟨s2, hrl, hbuf2, hob2, hrt2⟩ :=
          ih s1 ((hbuf.trans henv).trans hb) hr hmidr
        refine ⟨s2, ?_, hbuf2.trans (hbuf.trans henv), ?_, ?_⟩
        · simp [runLoop, hbody, hr, hrl]
        · rw [hob2, hob1s, arrivalCallbacks_cons, List.append_assoc]
        · have he : e.terminate = false := by
            cases hef : e.terminate
            · rfl
            · rw [hrt1s, hef] at hr
              simp at hr
          rw [hrt2]
          simp [he]
      · have hterm : e.terminate = true := by
          cases hef : e.terminate
          · rw [hrt1s, hef] at hr
            simp at hr
          · rfl
        have hrest : rest = [] := by
          cases rest with
          | nil => rfl
          | cons r rs =>
              have : (e, i).1.terminate = false := by
                apply hmid
                simp [List.dropLast_cons₂]
              simp [hterm] at this
        subst hrest
        refine ⟨s1, ?_, hbuf.trans henv, ?_, ?_⟩
        · simp [runLoop, hbody, hr]
        · rw [hob1s, arrivalCallbacks_cons, arrivalCallbacks_nil, List.append_nil]
        · simp [hrt1s, hterm]

/-- The final drain and persist of lines 106-107: it always succeeds when
`buffers_` is non-empty, leaves no filled buffer and no pending callback,
invokes exactly the outstanding obligations, performs an fsync, and takes
no lock, resets no counter and notifies nobody. -/
lemma shutdownPhase_master (s : LoopState) (b : LogBuffer) (bs : List LogBuffer)
    (hb : s.cs.buffers = b :: bs) :
    ∃ s1, shutdownPhase s = some s1 ∧
      s1.cs.buffers = s.cs.buffers ∧
      s1.cs.filledQueue = [] ∧ s1.cs.commitCallbacks = [] ∧
      invokedList s1.cs.events = obligations s ∧
      s1.cs.doPersist = s.cs.doPersist ∧
      s1.cs.currentDataWritten = s.cs.currentDataWritten + flushSum s.cs.filledQueue ∧
      s1.numBytes = s.numBytes ∧ s1.numBuffers = s.numBuffers ∧
      s1.writeUs = s.writeUs ∧ s1.persistUs = s.persistUs ∧
      ∃ seg, s1.cs.events = s.cs.events ++ seg ∧ persistCovered false seg = true ∧
        hasPersist seg = true ∧
        Event.lockAcquire ∉ seg ∧ Event.lockRelease ∉ seg ∧
        Event.notifyPersistDone ∉ seg := by
  have hW := writeBuffersToLogFile_eq s.cs
  unfold shutdownPhase persistLogFile
  rw [hW]
  simp only [hb]
  refine ⟨_, rfl, rfl, rfl, rfl, ?_, rfl, rfl, rfl, rfl, rfl, rfl,
    Event.persist b.id ::
      (s.cs.commitCallbacks ++ callbacksOfQueue s.cs.filledQueue).map Event.invoke,
    rfl, ?_, rfl, ?_, ?_, ?_⟩
  · simp [obligations, invokedList_append, invokedList, invokedList_map_invoke,
      List.append_assoc]
  · simp [persistCovered, persistCovered_append, persistCovered_map_invoke]
  · simp
  · simp
  · simp

/-- A complete run of `DiskLogConsumerTaskLoop` on a schedule whose only
termination request is its last step: it consumes the schedule, runs the
final drain and persist, and ends with no filled buffer, no pending
callback, and exactly the attached callbacks invoked, in order. -/
lemma taskLoop_complete (inputs : List (EnvInput × IterInput)) (s0 : ConsumerState)
    (b : LogBuffer) (bs : List LogBuffer) (hb : s0.buffers = b :: bs)
    (hrun : s0.runTask = true)
    (hmid : ∀ p ∈ inputs.dropLast, p.1.terminate = false)
    (hlast : inputs.all (fun p => !p.1.terminate) = false) :
    ∃ sf, diskLogConsumerTaskLoop inputs s0 = some sf ∧
      sf.cs.filledQueue = [] ∧ sf.cs.commitCallbacks = [] ∧
      invokedList sf.cs.events =
        invokedList s0.events ++ s0.commitCallbacks ++
          callbacksOfQueue s0.filledQueue ++ arrivalCallbacks inputs ∧
      ∃ seg, sf.cs.events = s0.events ++ seg ∧ persistCovered false seg = true := by
  obtain ⟨s1, hrl, hbuf1, hob1, hrt1⟩ :=
    runLoop_complete inputs
      { cs := { s0 with currentDataWritten := 0 },
        writeUs := 0, persistUs := 0, numBytes := 0, numBuffers := 0 }
      b bs hb hrun hmid
  obtain ⟨s1t, hrlt, _, seg1, hev1, hcov1⟩ :=
    runLoop_trace inputs
      { cs := { s0 with currentDataWritten := 0 },
        writeUs := 0, persistUs := 0, numBytes := 0, numBuffers := 0 }
      b bs hb
  rw [hrl] at hrlt
  injection hrlt with hs1t
  subst hs1t
  have hrt : s1.cs.runTask = false := hrt1.trans hlast
  obtain ⟨s2, hsp, _, hfq2, hcc2, hinv2, _, _, _, _, _, _, seg2, hev2, hcov2, _, _, _, _⟩ :=
    shutdownPhase_master s1 b bs (hbuf1.trans hb)
  have hloop : diskLogConsumerTaskLoop inputs s0 = some s2 := by
    unfold diskLogConsumerTaskLoop
    simp only [hrl, hrt]
    simpa using hsp
  refine ⟨s2, hloop, hfq2, hcc2, ?_, seg1 ++ seg2, ?_, ?_⟩
  · rw [hinv2, hob1]
    rfl
  · rw [hev2, hev1, List.append_assoc]
  · exact persistCovered_concat seg1 seg2 hcov1 hcov2

lemma spinUntilRunning_of_mem (obs : List Bool) (h : true ∈ obs) :
    spinUntilRunning obs = some () := by
  induction obs with
  | nil => simp at h
  | cons x rest ih =>
      cases x
      · have hx : true ∈ rest := by simpa using h
        simpa [spinUntilRunning] using ih hx
      · simp [spinUntilRunning]

lemma spinUntilRunning_replicate (n : Nat) :
    spinUntilRunning (List.replicate n false) = none := by
  induction n with
  | zero => rfl
  | succ m ih => simpa [List.replicate, spinUntilRunning] using ih

/-- Claim C5: `WriteBuffersToLogFile` dequeues every entry of the filled queue
until it is empty; for each entry it adds the return value of `FlushBuffer` to
`current_data_written_`, appends the callbacks of the entry at the end of
`commit_callbacks_` preserving their order, and enqueues the buffer on the
empty queue; it never calls `Persist` (the trace is unchanged). -/
theorem claim5_write_buffers_drains_all (s : ConsumerState) :
    writeBuffersToLogFile s =
      { s with
        filledQueue := [],
        currentDataWritten := s.currentDataWritten + flushSum s.filledQueue,
        commitCallbacks := s.commitCallbacks ++ callbacksOfQueue s.filledQueue,
        emptyQueue := s.emptyQueue ++ s.filledQueue.map SerializedLogs.buffer } ∧
    (writeBuffersToLogFile s).events = s.events :=
  ⟨writeBuffersToLogFile_eq s, by rw [writeBuffersToLogFile_eq]⟩

/-- Claim C7: `Terminate` spin-yields while `run_task_` is false; once
`RunTask` has set `run_task_` true it terminates, setting `run_task_` to
false and notifying the wake condition variable; if `run_task_` is never
observed true the spin loop never finishes, however many reads occur. -/
theorem claim7_terminate_spins_then_stops (obs : List Bool) :
    (true ∈ obs → terminate obs = some { runTask := false, notifiedWake := true }) ∧
    (∀ n : Nat, terminate (List.replicate n false) = none) := by
  constructor
  · intro h
    simp [terminate, spinUntilRunning_of_mem obs h]
  · intro n
    simp [terminate, spinUntilRunning_replicate n]

/-- Witness for C7 at a concrete read sequence. -/
theorem claim7_witness :
    terminate [true] = some { runTask := false, notifiedWake := true } ∧
    terminate (List.replicate 2 false) = none :=
  ⟨(claim7_terminate_spins_then_stops [true]).1 (by decide),
   (claim7_terminate_spins_then_stops [true]).2 2⟩

/-- Claim C8: metrics are submitted iff `num_bytes > 0`, the thread-local store
is non-null and LOGGING is enabled; a null store makes the guard false
without consulting the store, so a null sink is tolerated; after a
submission the four accumulators are reset to zero. -/
theorem claim8_metrics_guard (store : Option MetricsStore) (s : LoopState) :
    (∀ n : Nat, metricsCond n none = false) ∧
    (metricsCond s.numBytes store = true ↔
      (0 < s.numBytes ∧ ∃ st, store = some st ∧ st.loggingEnabled = true)) ∧
    (metricsCond s.numBytes store = true →
      metricsStep store s =
        { s with
          cs := { s.cs with
            events := s.cs.events ++
              [Event.record s.writeUs s.persistUs s.numBytes s.numBuffers] },
          writeUs := 0, persistUs := 0, numBytes := 0, numBuffers := 0 }) ∧
    (metricsCond s.numBytes store = false → metricsStep store s = s) := by
  refine ⟨?_, ?_, ?_, ?_⟩
  · intro n
    simp [metricsCond]
  · cases store with
    | none => simp [metricsCond]
    | some st => simp [metricsCond]
  · intro h
    simp [metricsStep, h]
  · intro h
    simp [metricsStep, h]

/-- Witness for C8: a concrete submission with a non-null enabled store
and `num_bytes = 5` records the four accumulators and resets them. -/
theorem claim8_witness :
    metricsStep (some { loggingEnabled := true }) metricsLoopState =
      { cs := { initState with events := [Event.record 3 4 5 6] },
        writeUs := 0, persistUs := 0, numBytes := 0, numBuffers := 0 } :=
  (claim8_metrics_guard (some { loggingEnabled := true }) metricsLoopState).2.2.1
    (by decide)

/-- Claim C9: `PersistLogFile` requires a non-empty `buffers_` vector (the
assertion fails, modelled `none`, when it is empty); otherwise it fsyncs
the front buffer first, returns the length of the pending callback list
at entry, and invokes exactly that many callbacks, namely the pending
ones in order. -/
theorem claim9_persist_precondition (s : ConsumerState) :
    (s.buffers = [] → persistLogFile s = none) ∧
    (∀ b : LogBuffer, ∀ bs : List LogBuffer, s.buffers = b :: bs →
      ∃ n, ∃ s1 : ConsumerState, persistLogFile s = some (n, s1) ∧
        n = s.commitCallbacks.length ∧
        s1.events.drop s.events.length =
          Event.persist b.id :: s.commitCallbacks.map Event.invoke ∧
        invokedList (s1.events.drop s.events.length) = s.commitCallbacks ∧
        (invokedList (s1.events.drop s.events.length)).length = n) := by
  constructor
  · intro h
    simp [persistLogFile, h]
  · intro b bs h
    have hpe : persistLogFile s = some (s.commitCallbacks.length,
        { s with
          commitCallbacks := [],
          events := s.events ++
            Event.persist b.id :: s.commitCallbacks.map Event.invoke }) := by
      simp [persistLogFile, h]
    refine ⟨_, _, hpe, rfl, ?_, ?_, ?_⟩
    · simp [List.drop_left]
    · simp [List.drop_left, invokedList, invokedList_map_invoke]
    · simp [List.drop_left, invokedList, invokedList_map_invoke]

/-- Witness for C9: a concrete call with two pending callbacks returns 2
and invokes them in order after the fsync; the empty-vector case hits the
assertion. -/
theorem claim9_witness :
    (persistLogFile noBufferState = none) ∧
    ∃ n, ∃ s1 : ConsumerState,
      persistLogFile pendingState = some (n, s1) ∧
      n = pendingState.commitCallbacks.length ∧
      s1.events.drop pendingState.events.length =
        Event.persist bufA.id :: pendingState.commitCallbacks.map Event.invoke ∧
      invokedList (s1.events.drop pendingState.events.length) =
        pendingState.commitCallbacks ∧
      (invokedList (s1.events.drop pendingState.events.length)).length = n :=
  ⟨(claim9_persist_precondition noBufferState).1 rfl,
   (claim9_persist_precondition pendingState).2 bufA [] rfl⟩

/-- Claim C2: an iteration of the main loop performs a persist (appends an
fsync completion to the trace) iff the timeout fired, or the bytes
written since the last persist (including the drain of this iteration)
strictly exceed `persist_threshold_`, or `do_persist_` is set, or
`run_task_` is false. -/
theorem claim2_persist_iff (inp : IterInput) (s : LoopState) (b : LogBuffer)
    (bs : List LogBuffer) (hb : s.cs.buffers = b :: bs) :
    ∃ s1, iterBody inp s = some s1 ∧
      (hasPersist (s1.cs.events.drop s.cs.events.length) = true ↔
        (inp.timeout = true ∨
         s.cs.persistThreshold <
           s.cs.currentDataWritten + flushSum s.cs.filledQueue ∨
         s.cs.doPersist = true ∨ s.cs.runTask = false)) := by
  have hIter : iterBody inp s =
      (if persistDecision inp.timeout (drainPhase inp.writeTime (waitPhase s)) then
        match persistBranch (drainPhase inp.writeTime (waitPhase s)) with
        | none => none
        | some s3 => some (metricsStep inp.metricsStore { s3 with persistUs := inp.persistTime })
      else
        some (metricsStep inp.metricsStore
          { drainPhase inp.writeTime (waitPhase s) with persistUs := inp.writeTime })) := rfl
  obtain ⟨D, hD⟩ : ∃ D, drainPhase inp.writeTime (waitPhase s) = D := ⟨_, rfl⟩
  rw [hD] at hIter
  rw [drainPhase_eq] at hD
  have hDbuf : D.cs.buffers = s.cs.buffers := by rw [← hD]
  have hDev : D.cs.events = s.cs.events ++ [Event.lockAcquire, Event.lockRelease] := by
    rw [← hD]
  have hdec : persistDecision inp.timeout D = true ↔
      (inp.timeout = true ∨
       s.cs.persistThreshold <
         s.cs.currentDataWritten + flushSum s.cs.filledQueue ∨
       s.cs.doPersist = true ∨ s.cs.runTask = false) := by
    rw [← hD]
    simp [persistDecision, Bool.or_eq_true, decide_eq_true_iff, Bool.not_eq_true',
      or_assoc]
  by_cases hd : persistDecision inp.timeout D = true
  · rw [if_pos hd, persistBranch_eq D b bs (hDbuf.trans hb)] at hIter
    obtain ⟨T, hT, seg0, hTev, hTp⟩ :
        ∃ T, iterBody inp s = some (metricsStep inp.metricsStore T) ∧
          ∃ seg0, T.cs.events = s.cs.events ++ seg0 ∧ hasPersist seg0 = true := by
      refine ⟨_, hIter, Event.lockAcquire :: Event.lockRelease :: Event.lockAcquire ::
        Event.persist b.id :: (D.cs.commitCallbacks.map Event.invoke ++
          [Event.lockRelease, Event.notifyPersistDone]), ?_, ?_⟩
      · simp [hDev, List.append_assoc]
      · rfl
    obtain ⟨_, _, _, _, _, seg2, he2, _, _, _⟩ := metricsStep_master inp.metricsStore T
    refine ⟨_, hT, ?_⟩
    rw [he2, hTev, List.append_assoc, List.drop_left, hasPersist_append, hTp]
    exact iff_of_true (by simp) (hdec.mp hd)
  · rw [if_neg hd] at hIter
    obtain ⟨T, hT, seg0, hTev, hTp⟩ :
        ∃ T, iterBody inp s = some (metricsStep inp.metricsStore T) ∧
          ∃ seg0, T.cs.events = s.cs.events ++ seg0 ∧ hasPersist seg0 = false := by
      exact ⟨_, hIter, [Event.lockAcquire, Event.lockRelease], by simp [hDev], rfl⟩
    obtain ⟨_, _, _, _, _, seg2, he2, _, hh2, _⟩ := metricsStep_master inp.metricsStore T
    refine ⟨_, hT, ?_⟩
    rw [he2, hTev, List.append_assoc, List.drop_left, hasPersist_append, hTp, hh2]
    simp only [Bool.or_false]
    exact iff_of_false (by simp) (fun hp => hd (hdec.mpr hp))

/-- Witness for C2 at a concrete running state with a fired timeout. -/
theorem claim2_witness :
    ∃ s1, iterBody iterInputA pendingLoopState = some s1 ∧
      (hasPersist (s1.cs.events.drop pendingLoopState.cs.events.length) = true ↔
        (iterInputA.timeout = true ∨
         pendingLoopState.cs.persistThreshold <
           pendingLoopState.cs.currentDataWritten +
             flushSum pendingLoopState.cs.filledQueue ∨
         pendingLoopState.cs.doPersist = true ∨
         pendingLoopState.cs.runTask = false)) :=
  claim2_persist_iff iterInputA pendingLoopState bufA [] rfl

/-- Claim C10: the final drain-and-persist after the loop exits performs no
lock acquisition or release and no `persist_cv_` notification, and leaves
`current_data_written_` (only grown by the drain), `do_persist_`,
`num_bytes` and `num_buffers` unreset; the persist branch inside the loop
body, by contrast, starts by acquiring `persist_lock_`, resets the
counter and flag, and broadcasts `persist_cv_`. -/
theorem claim10_shutdown_no_lock_no_notify (s : LoopState) (b : LogBuffer)
    (bs : List LogBuffer) (hb : s.cs.buffers = b :: bs) :
    (∃ s1, shutdownPhase s = some s1 ∧
      Event.lockAcquire ∉ s1.cs.events.drop s.cs.events.length ∧
      Event.lockRelease ∉ s1.cs.events.drop s.cs.events.length ∧
      Event.notifyPersistDone ∉ s1.cs.events.drop s.cs.events.length ∧
      s1.cs.doPersist = s.cs.doPersist ∧
      s1.cs.currentDataWritten = s.cs.currentDataWritten + flushSum s.cs.filledQueue ∧
      s1.numBytes = s.numBytes ∧ s1.numBuffers = s.numBuffers) ∧
    (∀ t : LoopState, t.cs.buffers = b :: bs →
      ∃ t1, persistBranch t = some t1 ∧
        (t1.cs.events.drop t.cs.events.length).head? = some Event.lockAcquire ∧
        Event.notifyPersistDone ∈ t1.cs.events.drop t.cs.events.length ∧
        (∃ bid, Event.persist bid ∈ t1.cs.events.drop t.cs.events.length) ∧
        t1.cs.currentDataWritten = 0 ∧ t1.cs.doPersist = false) := by
  constructor
  · obtain ⟨s1, hsp, _, _, _, _, hdo, hcur, hnb, hnbuf, _, _, seg, hev, _, _, hla, hlr, hnot⟩ :=
      shutdownPhase_master s b bs hb
    refine ⟨s1, hsp, ?_, ?_, ?_, hdo, hcur, hnb, hnbuf⟩
    · rw [hev, List.drop_left]
      exact hla
    · rw [hev, List.drop_left]
      exact hlr
    · rw [hev, List.drop_left]
      exact hnot
  · intro t hbt
    rw [persistBranch_eq t b bs hbt]
    refine ⟨_, rfl, ?_, ?_, ⟨b.id, ?_⟩, rfl, rfl⟩
    · simp [List.drop_left]
    · simp [List.drop_left]
    · simp [List.drop_left]

/-- Witness for C10 at a concrete loop state. -/
theorem claim10_witness :
    (∃ s1, shutdownPhase pendingLoopState = some s1 ∧
      Event.lockAcquire ∉ s1.cs.events.drop pendingLoopState.cs.events.length ∧
      Event.lockRelease ∉ s1.cs.events.drop pendingLoopState.cs.events.length ∧
      Event.notifyPersistDone ∉ s1.cs.events.drop pendingLoopState.cs.events.length ∧
      s1.cs.doPersist = pendingLoopState.cs.doPersist ∧
      s1.cs.currentDataWritten =
        pendingLoopState.cs.currentDataWritten + flushSum pendingLoopState.cs.filledQueue ∧
      s1.numBytes = pendingLoopState.numBytes ∧
      s1.numBuffers = pendingLoopState.numBuffers) ∧
    (∀ t : LoopState, t.cs.buffers = bufA :: [] →
      ∃ t1, persistBranch t = some t1 ∧
        (t1.cs.events.drop t.cs.events.length).head? = some Event.lockAcquire ∧
        Event.notifyPersistDone ∈ t1.cs.events.drop t.cs.events.length ∧
        (∃ bid, Event.persist bid ∈ t1.cs.events.drop t.cs.events.length) ∧
        t1.cs.currentDataWritten = 0 ∧ t1.cs.doPersist = false) :=
  claim10_shutdown_no_lock_no_notify pendingLoopState bufA [] rfl

/-- Claim C1: in every persist step the fsync (`Persist()` on a buffer)
completes before any pending commit callback runs — in any completed run,
every callback invocation in the trace is preceded by an earlier fsync
completion — and `PersistLogFile` invokes exactly the pending callbacks,
after the fsync and before clearing the pending list. -/
theorem claim1_durability_before_callback (inputs : List (EnvInput × IterInput))
    (s0 : ConsumerState) (sf : LoopState) (b : LogBuffer) (bs : List LogBuffer)
    (hb : s0.buffers = b :: bs) (hev0 : s0.events = [])
    (hsf : diskLogConsumerTaskLoop inputs s0 = some sf) :
    (∀ (i : Nat) (c : Callback), sf.cs.events[i]? = some (Event.invoke c) →
      ∃ j : Nat, j < i ∧ ∃ bid : Nat, sf.cs.events[j]? = some (Event.persist bid)) ∧
    (∀ t : ConsumerState, ∀ n : Nat, ∀ t1 : ConsumerState,
      persistLogFile t = some (n, t1) →
      t1.commitCallbacks = [] ∧
      ∃ bid : Nat, t1.events.drop t.events.length =
        Event.persist bid :: t.commitCallbacks.map Event.invoke) := by
  constructor
  · obtain ⟨s1, hrl, hbuf1, seg1, hev1, hcov1⟩ :=
      runLoop_trace inputs
        { cs := { s0 with currentDataWritten := 0 },
          writeUs := 0, persistUs := 0, numBytes := 0, numBuffers := 0 } b bs hb
    have hstep : diskLogConsumerTaskLoop inputs s0 =
        (if s1.cs.runTask = true then none else shutdownPhase s1) := by
      have hred : diskLogConsumerTaskLoop inputs s0 =
          (match runLoop inputs
            { cs := { s0 with currentDataWritten := 0 },
              writeUs := 0, persistUs := 0, numBytes := 0, numBuffers := 0 } with
          | none => none
          | some s => if s.cs.runTask = true then none else shutdownPhase s) := rfl
      rw [hred, hrl]
    rw [hstep] at hsf
    by_cases hr : s1.cs.runTask = true
    · rw [if_pos hr] at hsf
      exact absurd hsf (by simp)
    · rw [if_neg hr] at hsf
      obtain ⟨s2, hsp, _, _, _, _, _, _, _, _, _, _, seg2, hev2, hcov2, _, _, _, _⟩ :=
        shutdownPhase_master s1 b bs (hbuf1.trans hb)
      rw [hsp] at hsf
      injection hsf with hs2
      have hevf : sf.cs.events = seg1 ++ seg2 := by
        rw [← hs2, hev2, hev1]
        simp [hev0]
      have hcovf : persistCovered false sf.cs.events = true := by
        rw [hevf]
        exact persistCovered_concat seg1 seg2 hcov1 hcov2
      intro i c hi
      rcases persistCovered_getElem sf.cs.events false hcovf i c hi with hfalse | hgood
      · exact absurd hfalse (by simp)
      · exact hgood
  · intro t n t1 hpe
    cases hbt : t.buffers with
    | nil => simp [persistLogFile, hbt] at hpe
    | cons bb bbs =>
        simp [persistLogFile, hbt] at hpe
        obtain ⟨hn, ht1⟩ := hpe
        refine ⟨?_, bb.id, ?_⟩
        · rw [← ht1]
        · rw [← ht1]
          simp [List.drop_left]

/-- Witness for C1 on a concrete completed run. -/
theorem claim1_witness :
    (∀ (i : Nat) (c : Callback),
      ((diskLogConsumerTaskLoop sampleSchedule initState).getD
          pendingLoopState).cs.events[i]? = some (Event.invoke c) →
      ∃ j : Nat, j < i ∧ ∃ bid : Nat,
        ((diskLogConsumerTaskLoop sampleSchedule initState).getD
            pendingLoopState).cs.events[j]? = some (Event.persist bid)) ∧
    (∀ t : ConsumerState, ∀ n : Nat, ∀ t1 : ConsumerState,
      persistLogFile t = some (n, t1) →
      t1.commitCallbacks = [] ∧
      ∃ bid : Nat, t1.events.drop t.events.length =
        Event.persist bid :: t.commitCallbacks.map Event.invoke) :=
  claim1_durability_before_callback sampleSchedule initState
    ((diskLogConsumerTaskLoop sampleSchedule initState).getD pendingLoopState)
    bufA [] rfl rfl rfl

/-- Claim C3: after `Terminate` stops the loop, the unconditional final drain
and persist leave the filled queue and the pending callback list empty,
with every attached callback invoked; the shutdown path always performs
an fsync. -/
theorem claim3_final_drain_persist (inputs : List (EnvInput × IterInput))
    (s0 : ConsumerState) (b : LogBuffer) (bs : List LogBuffer)
    (hb : s0.buffers = b :: bs) (hrun : s0.runTask = true) (hev0 : s0.events = [])
    (hmid : ∀ p ∈ inputs.dropLast, p.1.terminate = false)
    (hlast : inputs.all (fun p => !p.1.terminate) = false) :
    (∃ sf, diskLogConsumerTaskLoop inputs s0 = some sf ∧
      sf.cs.filledQueue = [] ∧ sf.cs.commitCallbacks = [] ∧
      invokedList sf.cs.events =
        s0.commitCallbacks ++ callbacksOfQueue s0.filledQueue ++
          arrivalCallbacks inputs) ∧
    (∀ t : LoopState, t.cs.buffers = b :: bs →
      ∃ t1, shutdownPhase t = some t1 ∧ t1.cs.filledQueue = [] ∧
        t1.cs.commitCallbacks = [] ∧
        hasPersist (t1.cs.events.drop t.cs.events.length) = true) := by
  constructor
  · obtain ⟨sf, hloop, hfq, hcc, hinv, _⟩ :=
      taskLoop_complete inputs s0 b bs hb hrun hmid hlast
    refine ⟨sf, hloop, hfq, hcc, ?_⟩
    rw [hinv, hev0]
    simp [invokedList]
  · intro t hbt
    obtain ⟨t1, hsp, _, hfq, hcc, _, _, _, _, _, _, _, seg, hev, _, hhp, _, _, _⟩ :=
      shutdownPhase_master t b bs hbt
    refine ⟨t1, hsp, hfq, hcc, ?_⟩
    rw [hev, List.drop_left]
    exact hhp

/-- Witness for C3 on a concrete one-arrival schedule. -/
theorem claim3_witness :
    (∃ sf, diskLogConsumerTaskLoop sampleSchedule initState = some sf ∧
      sf.cs.filledQueue = [] ∧ sf.cs.commitCallbacks = [] ∧
      invokedList sf.cs.events =
        initState.commitCallbacks ++ callbacksOfQueue initState.filledQueue ++
          arrivalCallbacks sampleSchedule) ∧
    (∀ t : LoopState, t.cs.buffers = bufA :: [] →
      ∃ t1, shutdownPhase t = some t1 ∧ t1.cs.filledQueue = [] ∧
        t1.cs.commitCallbacks = [] ∧
        hasPersist (t1.cs.events.drop t.cs.events.length) = true) :=
  claim3_final_drain_persist sampleSchedule initState bufA [] rfl rfl rfl
    (fun p hp => absurd hp (by simp [sampleSchedule])) rfl

/-- Claim C4: every callback attached to an enqueued entry is invoked exactly
once over a complete run; the drain appends the callbacks of each entry once
to the pending list, and each persist invokes every pending callback and
then clears the list. -/
theorem claim4_callback_exactly_once (inputs : List (EnvInput × IterInput))
    (s0 : ConsumerState) (b : LogBuffer) (bs : List LogBuffer)
    (hb : s0.buffers = b :: bs) (hrun : s0.runTask = true) (hev0 : s0.events = [])
    (hcc0 : s0.commitCallbacks = []) (hfq0 : s0.filledQueue = [])
    (hmid : ∀ p ∈ inputs.dropLast, p.1.terminate = false)
    (hlast : inputs.all (fun p => !p.1.terminate) = false) :
    (∃ sf, diskLogConsumerTaskLoop inputs s0 = some sf ∧
      ∀ c : Callback, (invokedList sf.cs.events).count c =
        (arrivalCallbacks inputs).count c) ∧
    (∀ t : ConsumerState, (writeBuffersToLogFile t).commitCallbacks =
      t.commitCallbacks ++ callbacksOfQueue t.filledQueue) ∧
    (∀ t : ConsumerState, ∀ n : Nat, ∀ t1 : ConsumerState,
      persistLogFile t = some (n, t1) →
      invokedList (t1.events.drop t.events.length) = t.commitCallbacks ∧
      t1.commitCallbacks = []) := by
  refine ⟨?_, ?_, ?_⟩
  · obtain ⟨sf, hloop, _, _, hinv, _⟩ :=
      taskLoop_complete inputs s0 b bs hb hrun hmid hlast
    refine ⟨sf, hloop, fun c => ?_⟩
    rw [hinv, hev0, hcc0, hfq0]
    simp [invokedList, callbacksOfQueue_nil]
  · intro t
    rw [writeBuffersToLogFile_eq]
  · intro t n t1 hpe
    cases hbt : t.buffers with
    | nil => simp [persistLogFile, hbt] at hpe
    | cons bb bbs =>
        simp [persistLogFile, hbt] at hpe
        obtain ⟨hn, ht1⟩ := hpe
        constructor
        · rw [← ht1]
          simp [List.drop_left, invokedList, invokedList_map_invoke]
        · rw [← ht1]

/-- Witness for C4 on a concrete one-arrival schedule. -/
theorem claim4_witness :
    (∃ sf, diskLogConsumerTaskLoop sampleSchedule initState = some sf ∧
      ∀ c : Callback, (invokedList sf.cs.events).count c =
        (arrivalCallbacks sampleSchedule).count c) ∧
    (∀ t : ConsumerState, (writeBuffersToLogFile t).commitCallbacks =
      t.commitCallbacks ++ callbacksOfQueue t.filledQueue) ∧
    (∀ t : ConsumerState, ∀ n : Nat, ∀ t1 : ConsumerState,
      persistLogFile t = some (n, t1) →
      invokedList (t1.events.drop t.events.length) = t.commitCallbacks ∧
      t1.commitCallbacks = []) :=
  claim4_callback_exactly_once sampleSchedule initState bufA [] rfl rfl rfl rfl rfl
    (fun p hp => absurd hp (by simp [sampleSchedule])) rfl

/-- Claim C6: callbacks are invoked exactly in the merged drained order: over a
complete run from a clean state the invocation sequence equals the
concatenation of the callback lists of the arrival entries in producer order,
so a callback earlier in that merged order is invoked earlier. -/
theorem claim6_callback_order (inputs : List (EnvInput × IterInput))
    (s0 : ConsumerState) (b : LogBuffer) (bs : List LogBuffer)
    (hb : s0.buffers = b :: bs) (hrun : s0.runTask = true) (hev0 : s0.events = [])
    (hcc0 : s0.commitCallbacks = []) (hfq0 : s0.filledQueue = [])
    (hmid : ∀ p ∈ inputs.dropLast, p.1.terminate = false)
    (hlast : inputs.all (fun p => !p.1.terminate) = false) :
    ∃ sf, diskLogConsumerTaskLoop inputs s0 = some sf ∧
      invokedList sf.cs.events = arrivalCallbacks inputs ∧
      (∀ (k1 k2 : Nat) (c1 c2 : Callback), k1 < k2 →
        (arrivalCallbacks inputs)[k1]? = some c1 →
        (arrivalCallbacks inputs)[k2]? = some c2 →
        (invokedList sf.cs.events)[k1]? = some c1 ∧
        (invokedList sf.cs.events)[k2]? = some c2) := by
  obtain ⟨sf, hloop, _, _, hinv, _⟩ :=
    taskLoop_complete inputs s0 b bs hb hrun hmid hlast
  have hiv : invokedList sf.cs.events = arrivalCallbacks inputs := by
    rw [hinv, hev0, hcc0, hfq0]
    simp [invokedList, callbacksOfQueue_nil]
  refine ⟨sf, hloop, hiv, fun k1 k2 c1 c2 hk h1 h2 => ⟨?_, ?_⟩⟩
  · rw [hiv]
    exact h1
  · rw [hiv]
    exact h2

/-- Witness for C6 on a concrete one-arrival schedule. -/
theorem claim6_witness :
    ∃ sf, diskLogConsumerTaskLoop sampleSchedule initState = some sf ∧
      invokedList sf.cs.events = arrivalCallbacks sampleSchedule ∧
      (∀ (k1 k2 : Nat) (c1 c2 : Callback), k1 < k2 →
        (arrivalCallbacks sampleSchedule)[k1]? = some c1 →
        (arrivalCallbacks sampleSchedule)[k2]? = some c2 →
        (invokedList sf.cs.events)[k1]? = some c1 ∧
        (invokedList sf.cs.events)[k2]? = some c2) :=
  claim6_callback_order sampleSchedule initState bufA [] rfl rfl rfl rfl rfl
    (fun p hp => absurd hp (by simp [sampleSchedule])) rfl

end Terrier
